import Mathlib

/-!
Verification of the OCR service core (`apps/ocr-service/main.py`).

The development shallowly embeds the service's pure core in Lean:
geometry primitives (`BBox`, `calculate_bbox_iou`), the canonical
document model (`Token`/`Line`/`Block`/`Table`/`Figure`/`Page`), the
duplicate resolver (`deduplicate_blocks_by_iou`), the result
normalizers (`yomitoku_result_to_page`, `yomitoku_ocr_to_page`) over a
JSON-like value type with explicit Python-exception results, and the
tile endpoints' placement/remap/merge pipeline.  Machine floats are
modelled as exact rationals.
-/

attribute [local semireducible] Rat.add Rat.sub Rat.mul Rat.inv

namespace OCRService

/-- Bounding box in pixel coordinates (top-left origin); mirrors the
`BBox` pydantic model.  Python floats are embedded as rationals. -/
structure BBox where
  x : ℚ
  y : ℚ
  w : ℚ
  h : ℚ
deriving DecidableEq

/-- OCR token; mirrors the `Token` pydantic model. -/
structure Token where
  text : String
  bbox : BBox
  confidence : Option ℚ
deriving DecidableEq

/-- Text line; mirrors the `Line` pydantic model. -/
structure Line where
  text : String
  bbox : BBox
  tokens : List Token
deriving DecidableEq

/-- Text block; mirrors the `Block` pydantic model. -/
structure Block where
  text : String
  bbox : BBox
  blockType : String
  lines : List Line
deriving DecidableEq

/-- Python exception kinds raised on the modelled code paths. -/
inductive PyErr where
  | attributeError
  | typeError
  | valueError
  | indexError
  | validationError
deriving DecidableEq

/-- JSON-like engine result value: the loosely typed data the service
receives from the engine (`None`, numbers, strings, lists, tuples,
dicts).  Machine floats and ints are both embedded as rationals. -/
inductive YVal where
  | vNone
  | vNum (q : ℚ)
  | vStr (s : String)
  | vList (xs : List YVal)
  | vTuple (xs : List YVal)
  | vDict (entries : List (String × YVal))

/-- Table cell, as built by `yomitoku_result_to_page` (the Python code
stores these as plain dicts inside `Table.cells`; index/span/text
values are stored raw, only the bbox goes through `float()`). -/
structure Cell where
  rowIndex : YVal
  colIndex : YVal
  rowSpan : YVal
  colSpan : YVal
  text : YVal
  bbox : BBox

/-- Table structure; mirrors the `Table` pydantic model. -/
structure Table where
  bbox : BBox
  rows : ℤ
  cols : ℤ
  cells : List Cell

/-- Figure region; mirrors the `Figure` pydantic model. -/
structure Figure where
  bbox : BBox
  figureType : String
deriving DecidableEq

/-- Single page result; mirrors the `Page` pydantic model. -/
structure Page where
  pageIndex : ℤ
  dpi : ℤ
  widthPx : ℤ
  heightPx : ℤ
  blocks : List Block
  tables : Option (List Table)
  figures : Option (List Figure)
  readingOrder : Option (List ℤ)

/-! Python-operation helpers over `YVal`, with explicit exception
results where the Python operation can raise. -/

/-- Python truthiness of a value. -/
def pyTruthy : YVal → Bool
  | .vNone => false
  | .vNum q => !(q == 0)
  | .vStr s => !(s == "")
  | .vList xs => !xs.isEmpty
  | .vTuple xs => !xs.isEmpty
  | .vDict es => !es.isEmpty

/-- Python `a or b`. -/
def pyOr (a b : YVal) : YVal := if pyTruthy a then a else b

/-- Python `isinstance(v, dict)`. -/
def isDict : YVal → Bool
  | .vDict _ => true
  | _ => false

/-- Python `key in v` for a dict value (used only under an
`isinstance(v, dict)` guard in the source). -/
def hasKey : YVal → String → Bool
  | .vDict es, key => es.any (fun e => e.1 == key)
  | _, _ => false

/-- Python `v[key]` / `v.get(key, dflt)` lookup on a dict value with a
default; used where the source has already guarded on the dict shape
or supplies an explicit default. -/
def pyDictGetD (v : YVal) (key : String) (dflt : YVal) : YVal :=
  match v with
  | .vDict es => (es.lookup key).getD dflt
  | _ => dflt

/-- Python `v.get(key, dflt)`: raises `AttributeError` on values that
have no `.get` method (anything but a dict). -/
def pyGetD (v : YVal) (key : String) (dflt : YVal) : Except PyErr YVal :=
  match v with
  | .vDict es => .ok ((es.lookup key).getD dflt)
  | _ => .error .attributeError

/-- Python `v.get(key)` (default `None`). -/
def pyGet (v : YVal) (key : String) : Except PyErr YVal :=
  pyGetD v key .vNone

/-- Python `v[i]` for sequence values; raises `IndexError` out of
range and `TypeError` on non-sequences. -/
def pyIndex (v : YVal) (i : ℕ) : Except PyErr YVal :=
  match v with
  | .vList xs => match xs.get? i with
    | some x => .ok x
    | none => .error .indexError
  | .vTuple xs => match xs.get? i with
    | some x => .ok x
    | none => .error .indexError
  | _ => .error .typeError

/-- Python iteration `for x in v`: lists and tuples yield elements,
strings their characters, dicts their keys; other values raise
`TypeError`. -/
def pyIter : YVal → Except PyErr (List YVal)
  | .vList xs => .ok xs
  | .vTuple xs => .ok xs
  | .vStr s => .ok (s.toList.map (fun c => .vStr (String.mk [c])))
  | .vDict es => .ok (es.map (fun e => .vStr e.1))
  | _ => .error .typeError

/-- Python `float(v)` as used on engine box coordinates; numbers pass
through, any other value is rejected. -/
def pyFloat : YVal → Except PyErr ℚ
  | .vNum q => .ok q
  | _ => .error .typeError

/-- Python numeric subtraction `a - b` on two engine values, as in
`bbox_data[2] - bbox_data[0]`. -/
def pyNumSub (a b : YVal) : Except PyErr YVal :=
  match a, b with
  | .vNum p, .vNum q => .ok (.vNum (p - q))
  | _, _ => .error .typeError

/-- Pydantic validation of a `str` field (e.g. `Line.text`,
`Block.blockType`). -/
def pyStr : YVal → Except PyErr String
  | .vStr s => .ok s
  | _ => .error .validationError

/-- Pydantic validation of an `int` field (e.g. `Table.rows`). -/
def pyInt : YVal → Except PyErr ℤ
  | .vNum q => if q.den == 1 then .ok q.num else .error .validationError
  | _ => .error .validationError

/-- Pydantic validation of an `Optional[float]` field
(`Token.confidence`). -/
def pyOptFloat : YVal → Except PyErr (Option ℚ)
  | .vNone => .ok none
  | .vNum q => .ok (some q)
  | _ => .error .validationError

/-- Pydantic validation of the `Optional[list[int]]` field
`Page.readingOrder`. -/
def pyReadingOrder : YVal → Except PyErr (Option (List ℤ))
  | .vNone => .ok none
  | .vList xs => (xs.mapM pyInt).map some
  | _ => .error .validationError

/-- Python `str()` rendering as used inside f-strings; only string
values appear on the reachable paths, other renderings are not
modelled. -/
def pyFStr : YVal → String
  | .vStr s => s
  | _ => ""

/-- The min/max-of-points computation shared by the word loops
(main.py:340-345 and 513-517): extract `p[0]`/`p[1]` from each point,
then take min and max; `min`/`max` of an empty sequence raise
`ValueError`.  Returns `(x1, x2, y1, y2)`. -/
def wordPointsMinMax (word_data : YVal) : Except PyErr (ℚ × ℚ × ℚ × ℚ) := do
  let points ← pyGetD word_data "points"
    (.vList [.vList [.vNum 0, .vNum 0], .vList [.vNum 0, .vNum 0],
      .vList [.vNum 0, .vNum 0], .vList [.vNum 0, .vNum 0]])
  let ps ← pyIter points
  let xs ← ps.mapM (fun p => do pyFloat (← pyIndex p 0))
  let ys ← ps.mapM (fun p => do pyFloat (← pyIndex p 1))
  match xs, ys with
  | [], _ => .error .valueError
  | _, [] => .error .valueError
  | x :: xrest, y :: yrest =>
    pure (xrest.foldl min x, xrest.foldl max x, yrest.foldl min y, yrest.foldl max y)

/-- The `all_words` accumulation of `yomitoku_result_to_page`
(main.py:334-352).  The resulting list is never used afterwards in the
source, but the loop's fallible operations still execute, so the
embedding performs them for their exception behavior. -/
def compute_all_words (result : YVal) : Except PyErr Unit := do
  if isDict result && hasKey result "words" then
    let ws ← pyIter (pyDictGetD result "words" .vNone)
    let _ ← ws.mapM (fun word_data => do
      let _ ← wordPointsMinMax word_data
      let _ ← pyGetD word_data "content" (.vStr "")
      let _ ← pyGetD word_data "rec_score" (.vNum 1)
      let _ ← pyGetD word_data "direction" (.vStr "horizontal")
      pure ())
    pure ()
  else
    pure ()

/-- Conversion of a two-corner box `[x1, y1, x2, y2]` into a `BBox`,
in the source's keyword-argument evaluation order:
`x=float(bd[0]), y=float(bd[1]), w=float(bd[2]-bd[0]),
h=float(bd[3]-bd[1])`. -/
def boxToBBox (bd : YVal) : Except PyErr BBox := do
  let x ← pyFloat (← pyIndex bd 0)
  let y ← pyFloat (← pyIndex bd 1)
  let w ← pyFloat (← pyNumSub (← pyIndex bd 2) (← pyIndex bd 0))
  let h ← pyFloat (← pyNumSub (← pyIndex bd 3) (← pyIndex bd 1))
  pure ⟨x, y, w, h⟩

/-- Conversion of one paragraph record to a `Block`
(main.py:364-398): two-corner box, `contents` text, `role or "text"`
block type (the `f"paragraph_{direction}"` fallback is dead because
the role is already defaulted to the truthy `"text"`), one synthesized
`Line` with no tokens. -/
def paragraphToBlock (paragraph : YVal) : Except PyErr Block := do
  let bbox_data ← pyGetD paragraph "box"
    (.vList [.vNum 0, .vNum 0, .vNum 0, .vNum 0])
  let bbox ← boxToBBox bbox_data
  let contents_raw := pyOr (← pyGetD paragraph "contents" (.vStr "")) (.vStr "")
  let role := pyOr (← pyGet paragraph "role") (.vStr "text")
  let direction := pyOr (← pyGet paragraph "direction") (.vStr "horizontal")
  let block_type_raw := if pyTruthy role then role
    else .vStr ("paragraph_" ++ pyFStr direction)
  let text_content ← pyStr contents_raw
  let line : Line := ⟨text_content, bbox, []⟩
  let block_type ← pyStr block_type_raw
  pure ⟨text_content, bbox, block_type, [line]⟩

/-- Conversion of one table cell record to a `Cell`
(main.py:423-437): index/span/text values are stored raw, the cell box
goes through the two-corner `float()` conversion. -/
def cellToCell (cell_data : YVal) : Except PyErr Cell := do
  let cell_bbox_data ← pyGetD cell_data "box"
    (.vList [.vNum 0, .vNum 0, .vNum 0, .vNum 0])
  let rowIndex ← pyGetD cell_data "row" (.vNum 0)
  let colIndex ← pyGetD cell_data "col" (.vNum 0)
  let rowSpan ← pyGetD cell_data "row_span" (.vNum 1)
  let colSpan ← pyGetD cell_data "col_span" (.vNum 1)
  let text := pyOr (← pyGetD cell_data "contents" (.vStr "")) (.vStr "")
  let bbox ← boxToBBox cell_bbox_data
  pure ⟨rowIndex, colIndex, rowSpan, colSpan, text, bbox⟩

/-- Conversion of one table record to a `Table` (main.py:405-445). -/
def tableToTable (table_data : YVal) : Except PyErr Table := do
  let bbox_data ← pyGetD table_data "box"
    (.vList [.vNum 0, .vNum 0, .vNum 0, .vNum 0])
  let bbox ← boxToBBox bbox_data
  let rows_count ← pyGetD table_data "n_row" (.vNum 0)
  let cols_count ← pyGetD table_data "n_col" (.vNum 0)
  let cells_raw ← pyGetD table_data "cells" (.vList [])
  let cs ← pyIter cells_raw
  let cells ← cs.mapM cellToCell
  let rows ← pyInt rows_count
  let cols ← pyInt cols_count
  pure ⟨bbox, rows, cols, cells⟩

/-- Conversion of one figure record to a `Figure`
(main.py:450-469): two-corner box and a direction-qualified type tag,
`"figure"` when the direction is absent or falsy. -/
def figureToFigure (figure_data : YVal) : Except PyErr Figure := do
  let bbox_data ← pyGetD figure_data "box"
    (.vList [.vNum 0, .vNum 0, .vNum 0, .vNum 0])
  let bbox ← boxToBBox bbox_data
  let direction ← pyGet figure_data "direction"
  let figure_type := if pyTruthy direction then "figure_" ++ pyFStr direction
    else "figure"
  pure ⟨bbox, figure_type⟩

/-- Embedding of `yomitoku_result_to_page` (main.py:301-483): unwrap a
tuple-shaped result, build the unused `all_words` list, convert
paragraphs to blocks, tables and figures, extract `reading_order` via
`result.get` (which raises `AttributeError` on non-dict results), and
assemble the `Page`, with empty table/figure lists collapsed to
`None`. -/
def yomitoku_result_to_page (result0 : YVal)
    (page_index dpi width height : ℤ) : Except PyErr Page := do
  let result := match result0 with
    | .vTuple (x :: _) => x
    | r => r
  let _ ← compute_all_words result
  let blocks ← if isDict result && hasKey result "paragraphs" then do
      let ps ← pyIter (pyDictGetD result "paragraphs" .vNone)
      ps.mapM paragraphToBlock
    else pure []
  let tables ← if isDict result && hasKey result "tables" then do
      let ts ← pyIter (pyDictGetD result "tables" .vNone)
      ts.mapM tableToTable
    else pure []
  let figures ← if isDict result && hasKey result "figures" then do
      let fs ← pyIter (pyDictGetD result "figures" .vNone)
      fs.mapM figureToFigure
    else pure []
  let reading_order ← pyGet result "reading_order"
  let readingOrder ← pyReadingOrder reading_order
  pure { pageIndex := page_index, dpi := dpi, widthPx := width,
         heightPx := height, blocks := blocks,
         tables := if tables.isEmpty then none else some tables,
         figures := if figures.isEmpty then none else some figures,
         readingOrder := readingOrder }

/-- The `words` extraction of `yomitoku_ocr_to_page`
(main.py:503-510): a dict's `words` entry, else the first element of a
tuple when that is a dict, else the empty list. -/
def ocr_words_val (result : YVal) : YVal :=
  if isDict result && hasKey result "words" then
    pyDictGetD result "words" (.vList [])
  else
    match result with
    | .vTuple (first :: _) =>
      if isDict first then pyDictGetD first "words" (.vList []) else .vList []
    | _ => .vList []

/-- Conversion of one OCR word to its own `Block`/`Line`/`Token`
triple (main.py:512-527). -/
def wordToBlock (word : YVal) : Except PyErr Block := do
  let mm ← wordPointsMinMax word
  let bbox : BBox := ⟨mm.1, mm.2.2.1, mm.2.1 - mm.1, mm.2.2.2 - mm.2.2.1⟩
  let text ← pyStr (pyOr (← pyGetD word "content" (.vStr "")) (.vStr ""))
  let confidence ← pyOptFloat (← pyGet word "rec_score")
  let token : Token := ⟨text, bbox, confidence⟩
  let line : Line := ⟨text, bbox, [token]⟩
  pure ⟨text, bbox, "ocr_word", [line]⟩

/-- Embedding of `yomitoku_ocr_to_page` (main.py:485-540): every
detected word becomes its own block; the returned page always carries
`tables=None`, `figures=None`, `readingOrder=None`. -/
def yomitoku_ocr_to_page (result : YVal)
    (page_index dpi width height : ℤ) : Except PyErr Page :=
  (do
    let ws ← pyIter (ocr_words_val result)
    ws.mapM wordToBlock :
    Except PyErr (List Block)).map
    (fun blocks =>
      { pageIndex := page_index, dpi := dpi, widthPx := width,
        heightPx := height, blocks := blocks,
        tables := none, figures := none, readingOrder := none })

/-- IoU of two boxes; line-by-line embedding of `calculate_bbox_iou`
(main.py:1146-1162).  `0.0 if ... <= ...` becomes an `if` on `≤`; the
final expression is `intersection / union if union > 0 else 0.0`. -/
def calculate_bbox_iou (bbox1 bbox2 : BBox) : ℚ :=
  let x1_inter := max bbox1.x bbox2.x
  let y1_inter := max bbox1.y bbox2.y
  let x2_inter := min (bbox1.x + bbox1.w) (bbox2.x + bbox2.w)
  let y2_inter := min (bbox1.y + bbox1.h) (bbox2.y + bbox2.h)
  if x2_inter ≤ x1_inter ∨ y2_inter ≤ y1_inter then 0
  else
    let intersection := (x2_inter - x1_inter) * (y2_inter - y1_inter)
    let union := bbox1.w * bbox1.h + bbox2.w * bbox2.h - intersection
    if 0 < union then intersection / union else 0

/-- Sum of `t.confidence or 0.0` over all tokens of all lines of a
block (the numerator of the sort key in main.py:1126). -/
def blockConfSum (b : Block) : ℚ :=
  (b.lines.map (fun l => (l.tokens.map (fun t => t.confidence.getD 0)).sum)).sum

/-- Total token count over all lines of a block (inside the
`max(1, ...)` denominator of the sort key in main.py:1126). -/
def blockTokenCount (b : Block) : ℕ :=
  (b.lines.map (fun l => l.tokens.length)).sum

/-- The sort key of `deduplicate_blocks_by_iou`: mean token confidence
with the denominator floored to 1, paired with `len(b.text)`. -/
def block_score (b : Block) : ℚ × ℕ :=
  (blockConfSum b / ((max 1 (blockTokenCount b) : ℕ) : ℚ), b.text.length)

/-- Lexicographic comparison of score pairs, as Python compares key
tuples. -/
def scoreLe (s t : ℚ × ℕ) : Prop :=
  s.1 < t.1 ∨ (s.1 = t.1 ∧ s.2 ≤ t.2)

instance : DecidableRel scoreLe := fun s t => by
  unfold scoreLe; infer_instance

/-- The ordering used by `sorted(blocks, key=..., reverse=True)`:
`a` may precede `b` when `b`'s key is lexicographically at most `a`'s.
Python's sort is stable; so is insertion sort, so sorting with this
relation reproduces `sorted` exactly, ties kept in pool order. -/
def blockGE (a b : Block) : Prop := scoreLe (block_score b) (block_score a)

instance : DecidableRel blockGE := fun a b => by
  unfold blockGE; infer_instance

/-- One iteration of the `for block in sorted_blocks` loop of
`deduplicate_blocks_by_iou` (main.py:1131-1141): the candidate is
discarded when some kept block overlaps it with IoU strictly above the
threshold, and appended otherwise. -/
def greedyStep (iou_threshold : ℚ) (kept_blocks : List Block) (block : Block) :
    List Block :=
  if kept_blocks.any (fun kept =>
      decide (iou_threshold < calculate_bbox_iou block.bbox kept.bbox)) = true then
    kept_blocks
  else
    kept_blocks ++ [block]

/-- Embedding of `deduplicate_blocks_by_iou` (main.py:1116-1143):
early return for pools of at most one block, else stable-sort
descending by `(meanConfidence, textLength)` and greedily filter by
IoU against the already kept blocks. -/
def deduplicate_blocks_by_iou (blocks : List Block) (iou_threshold : ℚ) :
    List Block :=
  if blocks.length ≤ 1 then blocks
  else (List.insertionSort blockGE blocks).foldl (greedyStep iou_threshold) []

/-! Specification-side definitions, written from the spec's words, to
be compared with the source-side embedding. -/

/-- Modelled from the spec: the keep rule of §4.4 — a block is kept if
and only if its bbox IoU with every already-kept block is at most the
threshold. -/
def dedup_spec_keep (iou_threshold : ℚ) (kept_blocks : List Block) (block : Block) :
    List Block :=
  if ∀ kept ∈ kept_blocks,
      calculate_bbox_iou block.bbox kept.bbox ≤ iou_threshold then
    kept_blocks ++ [block]
  else
    kept_blocks

/-- Modelled from the spec: §4.4's duplicate resolver — sort blocks
descending by score (stably, ties in pool order) and walk the sorted
list with the keep rule. -/
def dedup_spec (blocks : List Block) (iou_threshold : ℚ) : List Block :=
  (List.insertionSort blockGE blocks).foldl (dedup_spec_keep iou_threshold) []

/-- Modelled from the spec: §4.1's IoU description — intersection via
max/min corners, zero when the intersection width or height is ≤ 0,
zero when the union area is zero, else intersection over union. -/
def iou_spec (a b : BBox) : ℚ :=
  let iw := min (a.x + a.w) (b.x + b.w) - max a.x b.x
  let ih := min (a.y + a.h) (b.y + b.h) - max a.y b.y
  if iw ≤ 0 ∨ ih ≤ 0 then 0
  else if a.w * a.h + b.w * b.h - iw * ih = 0 then 0
  else (iw * ih) / (a.w * a.h + b.w * b.h - iw * ih)

/-! Blocks for the concrete two-block scenario of C1: identical bboxes
of positive area, texts `"A"` and `"AA"`, no tokens. -/

/-- Concrete block with text `"A"` used in the C1 scenario. -/
def c1_blockA : Block :=
  ⟨"A", ⟨0, 0, 10, 10⟩, "ocr_word", [⟨"A", ⟨0, 0, 10, 10⟩, []⟩]⟩

/-- Concrete block with text `"AA"` used in the C1 scenario. -/
def c1_blockAA : Block :=
  ⟨"AA", ⟨0, 0, 10, 10⟩, "ocr_word", [⟨"AA", ⟨0, 0, 10, 10⟩, []⟩]⟩

theorem greedyStep_eq_keep (t : ℚ) (kept : List Block) (b : Block) :
    greedyStep t kept b = dedup_spec_keep t kept b := by
  simp only [greedyStep, dedup_spec_keep, List.any_eq_true, decide_eq_true_eq]
  by_cases h : ∃ k ∈ kept, t < calculate_bbox_iou b.bbox k.bbox
  · rw [if_pos h, if_neg]
    push_neg
    obtain ⟨k, hk, hlt⟩ := h
    exact ⟨k, hk, hlt⟩
  · rw [if_neg h, if_pos]
    push_neg at h
    exact h

theorem dedup_eq_spec (blocks : List Block) (t : ℚ) :
    deduplicate_blocks_by_iou blocks t = dedup_spec blocks t := by
  have hstep : greedyStep t = dedup_spec_keep t := by
    funext kept b
    exact greedyStep_eq_keep t kept b
  unfold deduplicate_blocks_by_iou dedup_spec
  rw [hstep]
  split_ifs with h
  · match blocks with
    | [] => simp [List.insertionSort]
    | [b] => simp [List.insertionSort, List.orderedInsert, dedup_spec_keep]
    | a :: c :: l => simp at h
  · rfl

/-- C1: `deduplicate_blocks_by_iou` sorts the pool descending
lexicographically by (mean token confidence with missing confidences
as 0.0 and denominator floored to 1, character length of `Block.text`)
and then greedily keeps a block iff its IoU with every already kept
block is at most the threshold; on the two-block scenario with
identical bboxes and texts `"A"`/`"AA"` at threshold 0.5, exactly the
`"AA"` block is kept. -/
theorem C1_dedup_matches_spec :
    (∀ (blocks : List Block) (t : ℚ),
      deduplicate_blocks_by_iou blocks t = dedup_spec blocks t) ∧
    deduplicate_blocks_by_iou [c1_blockA, c1_blockAA] (1/2) = [c1_blockAA] :=
  ⟨dedup_eq_spec, by decide⟩

/-- C7: `calculate_bbox_iou` on boxes with nonnegative width/height
agrees with the spec's piecewise IoU description and always returns a
value in `[0, 1]`. -/
theorem C7_iou_spec_and_range (a b : BBox)
    (haw : 0 ≤ a.w) (hah : 0 ≤ a.h) (hbw : 0 ≤ b.w) (hbh : 0 ≤ b.h) :
    calculate_bbox_iou a b = iou_spec a b ∧
    0 ≤ calculate_bbox_iou a b ∧ calculate_bbox_iou a b ≤ 1 := by
  have hax : a.x ≤ max a.x b.x := le_max_left _ _
  have hbx : b.x ≤ max a.x b.x := le_max_right _ _
  have haxw : min (a.x + a.w) (b.x + b.w) ≤ a.x + a.w := min_le_left _ _
  have hbxw : min (a.x + a.w) (b.x + b.w) ≤ b.x + b.w := min_le_right _ _
  have hay : a.y ≤ max a.y b.y := le_max_left _ _
  have hby : b.y ≤ max a.y b.y := le_max_right _ _
  have hayh : min (a.y + a.h) (b.y + b.h) ≤ a.y + a.h := min_le_left _ _
  have hbyh : min (a.y + a.h) (b.y + b.h) ≤ b.y + b.h := min_le_right _ _
  simp only [calculate_bbox_iou, iou_spec]
  by_cases hc : min (a.x + a.w) (b.x + b.w) ≤ max a.x b.x ∨
      min (a.y + a.h) (b.y + b.h) ≤ max a.y b.y
  · have hc' : min (a.x + a.w) (b.x + b.w) - max a.x b.x ≤ 0 ∨
        min (a.y + a.h) (b.y + b.h) - max a.y b.y ≤ 0 := by
      rcases hc with h | h
      · exact Or.inl (by linarith)
      · exact Or.inr (by linarith)
    rw [if_pos hc, if_pos hc']
    norm_num
  · push_neg at hc
    obtain ⟨hxlt, hylt⟩ := hc
    have hwpos : 0 < min (a.x + a.w) (b.x + b.w) - max a.x b.x := by linarith
    have hhpos : 0 < min (a.y + a.h) (b.y + b.h) - max a.y b.y := by linarith
    have hIpos : 0 < (min (a.x + a.w) (b.x + b.w) - max a.x b.x) *
        (min (a.y + a.h) (b.y + b.h) - max a.y b.y) := mul_pos hwpos hhpos
    have hIA : (min (a.x + a.w) (b.x + b.w) - max a.x b.x) *
        (min (a.y + a.h) (b.y + b.h) - max a.y b.y) ≤ a.w * a.h :=
      mul_le_mul (by linarith) (by linarith) (le_of_lt hhpos) haw
    have hIB : (min (a.x + a.w) (b.x + b.w) - max a.x b.x) *
        (min (a.y + a.h) (b.y + b.h) - max a.y b.y) ≤ b.w * b.h :=
      mul_le_mul (by linarith) (by linarith) (le_of_lt hhpos) hbw
    have hUpos : 0 < a.w * a.h + b.w * b.h -
        (min (a.x + a.w) (b.x + b.w) - max a.x b.x) *
        (min (a.y + a.h) (b.y + b.h) - max a.y b.y) := by linarith
    rw [if_neg (by push_neg; exact ⟨hxlt, hylt⟩)]
    rw [if_neg (show ¬(min (a.x + a.w) (b.x + b.w) - max a.x b.x ≤ 0 ∨
        min (a.y + a.h) (b.y + b.h) - max a.y b.y ≤ 0) by
      push_neg; exact ⟨hwpos, hhpos⟩)]
    rw [if_pos hUpos, if_neg (ne_of_gt hUpos)]
    refine ⟨rfl, le_of_lt (div_pos hIpos hUpos), ?_⟩
    rw [div_le_one hUpos]
    linarith

/-- IoU is symmetric in its two arguments. -/
theorem calculate_bbox_iou_comm (a b : BBox) :
    calculate_bbox_iou a b = calculate_bbox_iou b a := by
  simp only [calculate_bbox_iou]
  rw [max_comm b.x a.x, max_comm b.y a.y, min_comm (b.x + b.w) (a.x + a.w),
    min_comm (b.y + b.h) (a.y + a.h), add_comm (b.w * b.h) (a.w * a.h)]

/-- Mutual-compatibility relation maintained by the greedy filter: the
later block's IoU against the earlier kept block is at most the
threshold. -/
def compat (t : ℚ) (a b : Block) : Prop :=
  calculate_bbox_iou b.bbox a.bbox ≤ t

theorem greedy_sublist (t : ℚ) (l : List Block) :
    ∀ acc : List Block, ∃ s : List Block,
      List.foldl (greedyStep t) acc l = acc ++ s ∧ s.Sublist l := by
  induction l with
  | nil => exact fun acc => ⟨[], by simp⟩
  | cons b l ih =>
    intro acc
    simp only [List.foldl_cons]
    by_cases hb : (acc.any fun kept =>
        decide (t < calculate_bbox_iou b.bbox kept.bbox)) = true
    · obtain ⟨s, hs, hsub⟩ := ih acc
      refine ⟨s, ?_, hsub.cons b⟩
      rw [greedyStep, if_pos hb]
      exact hs
    · obtain ⟨s, hs, hsub⟩ := ih (acc ++ [b])
      refine ⟨b :: s, ?_, hsub.cons₂ b⟩
      rw [greedyStep, if_neg hb, hs]
      simp

theorem greedy_pairwise (t : ℚ) (l : List Block) :
    ∀ acc : List Block, acc.Pairwise (compat t) →
      (List.foldl (greedyStep t) acc l).Pairwise (compat t) := by
  induction l with
  | nil => exact fun acc hacc => hacc
  | cons b l ih =>
    intro acc hacc
    simp only [List.foldl_cons]
    by_cases hb : (acc.any fun kept =>
        decide (t < calculate_bbox_iou b.bbox kept.bbox)) = true
    · rw [greedyStep, if_pos hb]
      exact ih acc hacc
    · rw [greedyStep, if_neg hb]
      apply ih
      rw [List.pairwise_append]
      refine ⟨hacc, List.pairwise_singleton _ _, ?_⟩
      intro k hk c hc
      rw [List.mem_singleton] at hc
      subst hc
      simp only [List.any_eq_true, decide_eq_true_eq] at hb
      push_neg at hb
      exact hb k hk

theorem greedy_fixpoint (t : ℚ) (l : List Block) :
    ∀ acc : List Block, (acc ++ l).Pairwise (compat t) →
      List.foldl (greedyStep t) acc l = acc ++ l := by
  induction l with
  | nil => simp
  | cons b l ih =>
    intro acc h
    have hguard : ¬ (acc.any fun kept =>
        decide (t < calculate_bbox_iou b.bbox kept.bbox)) = true := by
      simp only [List.any_eq_true, decide_eq_true_eq]
      push_neg
      intro k hk
      exact (List.pairwise_append.mp h).2.2 k hk b (List.mem_cons_self b l)
    simp only [List.foldl_cons]
    rw [greedyStep, if_neg hguard]
    have h' : ((acc ++ [b]) ++ l).Pairwise (compat t) := by
      rw [List.append_assoc, List.singleton_append]
      exact h
    rw [ih (acc ++ [b]) h', List.append_assoc, List.singleton_append]

theorem blockGE_total (a b : Block) : blockGE a b ∨ blockGE b a := by
  unfold blockGE scoreLe
  rcases lt_trichotomy (block_score b).1 (block_score a).1 with h | h | h
  · exact Or.inl (Or.inl h)
  · rcases Nat.le_total (block_score b).2 (block_score a).2 with h2 | h2
    · exact Or.inl (Or.inr ⟨h, h2⟩)
    · exact Or.inr (Or.inr ⟨h.symm, h2⟩)
  · exact Or.inr (Or.inl h)

theorem blockGE_trans (a b c : Block) :
    blockGE a b → blockGE b c → blockGE a c := by
  unfold blockGE scoreLe
  rintro (h1 | ⟨h1e, h1n⟩) (h2 | ⟨h2e, h2n⟩)
  · exact Or.inl (lt_trans h2 h1)
  · exact Or.inl (h2e ▸ h1)
  · exact Or.inl (h1e ▸ h2)
  · exact Or.inr ⟨h2e.trans h1e, le_trans h2n h1n⟩

instance : IsTotal Block blockGE := ⟨blockGE_total⟩
instance : IsTrans Block blockGE := ⟨fun a b c h1 h2 => blockGE_trans a b c h1 h2⟩

/-- C6: the duplicate resolver is idempotent — re-running it on its
own output with the same threshold returns that output unchanged. -/
theorem C6_dedup_idempotent (blocks : List Block) (t : ℚ) :
    deduplicate_blocks_by_iou (deduplicate_blocks_by_iou blocks t) t =
      deduplicate_blocks_by_iou blocks t := by
  by_cases h1 : blocks.length ≤ 1
  · have e1 : deduplicate_blocks_by_iou blocks t = blocks := by
      rw [deduplicate_blocks_by_iou, if_pos h1]
    rw [e1, deduplicate_blocks_by_iou, if_pos h1]
  · have e1 : deduplicate_blocks_by_iou blocks t =
        (List.insertionSort blockGE blocks).foldl (greedyStep t) [] := by
      rw [deduplicate_blocks_by_iou, if_neg h1]
    obtain ⟨s, hs, hsub⟩ := greedy_sublist t (List.insertionSort blockGE blocks) []
    have hoeq : (List.insertionSort blockGE blocks).foldl (greedyStep t) [] = s := by
      rw [hs]
      simp
    have hosorted : ((List.insertionSort blockGE blocks).foldl
        (greedyStep t) []).Pairwise blockGE := by
      rw [hoeq]
      exact (List.sorted_insertionSort blockGE blocks).sublist hsub
    have hocompat : ((List.insertionSort blockGE blocks).foldl
        (greedyStep t) []).Pairwise (compat t) :=
      greedy_pairwise t _ [] List.Pairwise.nil
    rw [e1]
    by_cases h2 : ((List.insertionSort blockGE blocks).foldl
        (greedyStep t) []).length ≤ 1
    · rw [deduplicate_blocks_by_iou, if_pos h2]
    · rw [deduplicate_blocks_by_iou, if_neg h2,
        List.Sorted.insertionSort_eq hosorted]
      exact greedy_fixpoint t _ [] (by simpa using hocompat)

/-- C9: the duplicate resolver only ever keeps blocks of the input
pool, and any two distinct kept blocks have bbox IoU at most the
threshold (in both argument orders). -/
theorem C9_dedup_subset_and_low_iou (blocks : List Block) (t : ℚ) :
    (∀ b ∈ deduplicate_blocks_by_iou blocks t, b ∈ blocks) ∧
    (deduplicate_blocks_by_iou blocks t).Pairwise
      (fun a b => calculate_bbox_iou a.bbox b.bbox ≤ t ∧
        calculate_bbox_iou b.bbox a.bbox ≤ t) := by
  by_cases h1 : blocks.length ≤ 1
  · have e1 : deduplicate_blocks_by_iou blocks t = blocks := by
      rw [deduplicate_blocks_by_iou, if_pos h1]
    rw [e1]
    refine ⟨fun b hb => hb, ?_⟩
    match blocks, h1 with
    | [], _ => exact List.Pairwise.nil
    | [b], _ => exact List.pairwise_singleton _ _
    | a :: c :: l, h1 => simp at h1
  · have e1 : deduplicate_blocks_by_iou blocks t =
        (List.insertionSort blockGE blocks).foldl (greedyStep t) [] := by
      rw [deduplicate_blocks_by_iou, if_neg h1]
    obtain ⟨s, hs, hsub⟩ := greedy_sublist t (List.insertionSort blockGE blocks) []
    have hoeq : (List.insertionSort blockGE blocks).foldl (greedyStep t) [] = s := by
      rw [hs]
      simp
    have hocompat : ((List.insertionSort blockGE blocks).foldl
        (greedyStep t) []).Pairwise (compat t) :=
      greedy_pairwise t _ [] List.Pairwise.nil
    rw [e1]
    constructor
    · intro b hb
      rw [hoeq] at hb
      exact (List.perm_insertionSort blockGE blocks).subset (hsub.subset hb)
    · refine hocompat.imp ?_
      intro a b hab
      exact ⟨by rw [calculate_bbox_iou_comm]; exact hab, hab⟩

theorem lookup_eq_none_of_hasKey_false (es : List (String × YVal)) (k : String)
    (h : hasKey (.vDict es) k = false) : es.lookup k = none := by
  induction es with
  | nil => rfl
  | cons e es ih =>
    simp only [hasKey, List.any_cons, Bool.or_eq_false_iff] at h
    have htail : es.lookup k = none := ih h.2
    cases e with
    | mk k' v =>
      have hne : (k == k') = false := by
        rcases Bool.eq_false_or_eq_true (k == k') with hb | hb
        · exfalso
          rw [beq_iff_eq] at hb
          subst hb
          simp at h
        · exact hb
      simp only [List.lookup, hne]
      exact htail

/-- C2 counterexample: on the non-dict result `None` the normalizer
raises `AttributeError` (at the `result.get("reading_order")` access,
main.py:472) instead of returning an empty `Page`. -/
theorem C2_counterexample_none_raises :
    yomitoku_result_to_page .vNone 0 300 100 100 = .error .attributeError := by
  rfl

/-- C2 (amended): a dict-shaped result carrying none of the keys
`paragraphs`/`tables`/`figures`/`words`/`reading_order` normalizes to
an empty `Page` (no blocks, tables, figures, or reading order) and
raises no exception; non-dict unrecognized values raise
`AttributeError` instead. -/
theorem C2_unrecognized_dict_empty_page (es : List (String × YVal))
    (page_index dpi width height : ℤ)
    (h1 : hasKey (.vDict es) "paragraphs" = false)
    (h2 : hasKey (.vDict es) "tables" = false)
    (h3 : hasKey (.vDict es) "figures" = false)
    (h4 : hasKey (.vDict es) "words" = false)
    (h5 : hasKey (.vDict es) "reading_order" = false) :
    yomitoku_result_to_page (.vDict es) page_index dpi width height =
      .ok ⟨page_index, dpi, width, height, [], none, none, none⟩ := by
  have hl := lookup_eq_none_of_hasKey_false es "reading_order" h5
  simp only [yomitoku_result_to_page, compute_all_words, isDict, Bool.true_and,
    h1, h2, h3, h4, if_false, Bool.false_eq_true, pyGet, pyGetD, hl,
    Option.getD, pyReadingOrder, List.isEmpty]
  rfl

/-- Witness for C2's amended dict case at the empty dict. -/
theorem C2_unrecognized_dict_empty_page_witness :
    yomitoku_result_to_page (.vDict []) 0 300 100 100 =
      .ok ⟨0, 300, 100, 100, [], none, none, none⟩ :=
  C2_unrecognized_dict_empty_page [] 0 300 100 100 rfl rfl rfl rfl rfl

/-- The C8 payload: one paragraph with box `[10,10,50,30]`, contents
`"hi"`, role `null`, and no tables, figures or words. -/
def c8_payload : YVal := .vDict [("paragraphs", .vList [.vDict
  [("box", .vList [.vNum 10, .vNum 10, .vNum 50, .vNum 30]),
   ("contents", .vStr "hi"), ("role", .vNone)]])]

/-- C8: the full-analysis payload with a single paragraph
`{box:[10,10,50,30], contents:"hi", role:null}` normalizes to a page
with exactly one `"text"` block at bbox `{x:10,y:10,w:40,h:20}` whose
single line carries `"hi"` and no tokens. -/
theorem C8_single_paragraph_block :
    yomitoku_result_to_page c8_payload 0 300 1000 1000 =
      .ok ⟨0, 300, 1000, 1000,
        [⟨"hi", ⟨10, 10, 40, 20⟩, "text", [⟨"hi", ⟨10, 10, 40, 20⟩, []⟩]⟩],
        none, none, none⟩ := by
  rfl

/-- C10: whenever `yomitoku_ocr_to_page` succeeds, the resulting page
has `tables = None`, `figures = None` and `readingOrder = None`,
whatever the engine result contained. -/
theorem C10_ocr_page_fixed_none_fields (result : YVal)
    (page_index dpi width height : ℤ) (p : Page)
    (h : yomitoku_ocr_to_page result page_index dpi width height = .ok p) :
    p.tables = none ∧ p.figures = none ∧ p.readingOrder = none := by
  revert h
  cases hE : (do
      let ws ← pyIter (ocr_words_val result)
      ws.mapM wordToBlock : Except PyErr (List Block)) with
  | error e =>
    intro h
    rw [yomitoku_ocr_to_page, hE] at h
    cases h
  | ok blocks =>
    intro h
    rw [yomitoku_ocr_to_page, hE] at h
    simp only [Except.map, Except.ok.injEq] at h
    rw [← h]
    exact ⟨rfl, rfl, rfl⟩

/-- Witness for C10 at the empty-dict result. -/
theorem C10_ocr_page_fixed_none_fields_witness :
    (⟨0, 300, 100, 100, [], none, none, none⟩ : Page).tables = none ∧
    (⟨0, 300, 100, 100, [], none, none, none⟩ : Page).figures = none ∧
    (⟨0, 300, 100, 100, [], none, none, none⟩ : Page).readingOrder = none :=
  C10_ocr_page_fixed_none_fields (.vDict []) 0 300 100 100 _ rfl

/-! The tile endpoints (main.py:800-943 and 946-1113): placement,
coordinate remap and per-page merge. -/

/-- Tile specification; mirrors the `TileSpec` pydantic model with the
`bboxNormalized` dict flattened into its four coordinates. -/
structure TileSpec where
  pageIndex : ℤ
  x : ℚ
  y : ℚ
  w : ℚ
  h : ℚ
  overlap : Option ℚ

/-- Python `int()` conversion of a float: truncation toward zero. -/
def pytrunc (q : ℚ) : ℤ := if 0 ≤ q then ⌊q⌋ else ⌈q⌉

/-- Modelled from the spec: Python 3 `round()` to an integer — round
half to even — as §4.3 claims the placement derivation uses. -/
def pyround (q : ℚ) : ℤ :=
  if q - ⌊q⌋ < 1/2 then ⌊q⌋
  else if 1/2 < q - ⌊q⌋ then ⌊q⌋ + 1
  else if ⌊q⌋ % 2 = 0 then ⌊q⌋ else ⌊q⌋ + 1

/-- Pixel placement `(x_px, y_px, w_px, h_px)` of a tile, as computed
by both tile endpoints (main.py:878-881 and 1025-1028):
`x_px = int(bbox_norm["x"] * page_width)` and so on. -/
def tile_placement (spec : TileSpec) (page_width page_height : ℤ) :
    ℤ × ℤ × ℤ × ℤ :=
  (pytrunc (spec.x * page_width), pytrunc (spec.y * page_height),
   pytrunc (spec.w * page_width), pytrunc (spec.h * page_height))

/-- The bbox rewrite applied in place by the tile endpoints
(main.py:905-921 and 1052-1092): tile-local pixel coordinates to
page-normalized coordinates. -/
def remapBBox (b : BBox) (x_px y_px page_width page_height : ℤ) : BBox :=
  ⟨(b.x + x_px) / page_width, (b.y + y_px) / page_height,
   b.w / page_width, b.h / page_height⟩

/-- Remap of a token's bbox. -/
def remapToken (t : Token) (x_px y_px page_width page_height : ℤ) : Token :=
  { t with bbox := remapBBox t.bbox x_px y_px page_width page_height }

/-- Remap of a line's bbox and all its tokens. -/
def remapLine (l : Line) (x_px y_px page_width page_height : ℤ) : Line :=
  { l with bbox := remapBBox l.bbox x_px y_px page_width page_height,
           tokens := l.tokens.map
             (fun t => remapToken t x_px y_px page_width page_height) }

/-- Remap of a block's bbox and all its lines and tokens. -/
def remapBlock (b : Block) (x_px y_px page_width page_height : ℤ) : Block :=
  { b with bbox := remapBBox b.bbox x_px y_px page_width page_height,
           lines := b.lines.map
             (fun l => remapLine l x_px y_px page_width page_height) }

/-- Remap of a table cell's bbox. -/
def remapCell (c : Cell) (x_px y_px page_width page_height : ℤ) : Cell :=
  { c with bbox := remapBBox c.bbox x_px y_px page_width page_height }

/-- Remap of a table's bbox and all its cell bboxes. -/
def remapTable (t : Table) (x_px y_px page_width page_height : ℤ) : Table :=
  { t with bbox := remapBBox t.bbox x_px y_px page_width page_height,
           cells := t.cells.map
             (fun c => remapCell c x_px y_px page_width page_height) }

/-- Remap of a figure's bbox. -/
def remapFigure (f : Figure) (x_px y_px page_width page_height : ℤ) : Figure :=
  { f with bbox := remapBBox f.bbox x_px y_px page_width page_height }

/-- Modelled from the spec: §8's inverse coordinate transform,
page-normalized space back to tile-local pixels with the same
placement. -/
def unmapBBox (b : BBox) (x_px y_px page_width page_height : ℤ) : BBox :=
  ⟨b.x * page_width - x_px, b.y * page_height - y_px,
   b.w * page_width, b.h * page_height⟩

/-- One tile of the OCR-only tiles endpoint (main.py:874-923):
placement, engine call on the crop, normalization with the tile's own
pixel size, remap of every produced block into page space.  The
engine is abstracted as a function of the page index and the pixel
placement that identifies the crop. -/
def ocr_tile_blocks (engine : ℕ → ℤ × ℤ × ℤ × ℤ → YVal) (dpi : ℤ)
    (page_idx : ℕ) (page_width page_height : ℤ) (spec : TileSpec) :
    Except PyErr (List Block) := do
  let p := tile_placement spec page_width page_height
  let tile_page ← yomitoku_ocr_to_page (engine page_idx p)
    page_idx dpi p.2.2.1 p.2.2.2
  pure (tile_page.blocks.map
    (fun b => remapBlock b p.1 p.2.1 page_width page_height))

/-- Embedding of the per-page loop of `ocr_only_tiles_endpoint`
(main.py:852-938): group tile specs by page index, silently skip
pages without tiles, process each tile, deduplicate the accumulated
block pool at threshold 0.5, and emit one page per processed index. -/
def ocr_only_tiles_pages (tile_specs : List TileSpec)
    (images : List (ℤ × ℤ)) (dpi : ℤ)
    (engine : ℕ → ℤ × ℤ × ℤ × ℤ → YVal) : Except PyErr (List Page) := do
  let pages ← images.enum.mapM (fun pi => do
    let specs := tile_specs.filter (fun s => s.pageIndex == (pi.1 : ℤ))
    if specs.isEmpty then
      pure none
    else do
      let blockLists ← specs.mapM
        (ocr_tile_blocks engine dpi pi.1 pi.2.1 pi.2.2)
      let deduplicated := deduplicate_blocks_by_iou blockLists.flatten (1/2)
      pure (some (⟨pi.1, dpi, pi.2.1, pi.2.2, deduplicated,
        none, none, none⟩ : Page)))
  pure (pages.filterMap id)

/-- One tile of the layout tiles endpoint (main.py:1021-1093):
placement, engine call, normalization, remap of blocks, tables (with
cells) and figures into page space. -/
def layout_tile_parts (engine : ℕ → ℤ × ℤ × ℤ × ℤ → YVal) (dpi : ℤ)
    (page_idx : ℕ) (page_width page_height : ℤ) (spec : TileSpec) :
    Except PyErr (List Block × List Table × List Figure) := do
  let p := tile_placement spec page_width page_height
  let tile_page ← yomitoku_result_to_page (engine page_idx p)
    page_idx dpi p.2.2.1 p.2.2.2
  let blocks := tile_page.blocks.map
    (fun b => remapBlock b p.1 p.2.1 page_width page_height)
  let tables := (tile_page.tables.getD []).map
    (fun t => remapTable t p.1 p.2.1 page_width page_height)
  let figures := (tile_page.figures.getD []).map
    (fun f => remapFigure f p.1 p.2.1 page_width page_height)
  pure (blocks, tables, figures)

/-- Embedding of the per-page loop of `layout_only_tiles_endpoint`
(main.py:998-1108): like the OCR variant, but also accumulating
tables and figures across tiles without deduplication. -/
def layout_only_tiles_pages (tile_specs : List TileSpec)
    (images : List (ℤ × ℤ)) (dpi : ℤ)
    (engine : ℕ → ℤ × ℤ × ℤ × ℤ → YVal) : Except PyErr (List Page) := do
  let pages ← images.enum.mapM (fun pi => do
    let specs := tile_specs.filter (fun s => s.pageIndex == (pi.1 : ℤ))
    if specs.isEmpty then
      pure none
    else do
      let parts ← specs.mapM
        (layout_tile_parts engine dpi pi.1 pi.2.1 pi.2.2)
      let all_blocks := (parts.map (fun q => q.1)).flatten
      let all_tables := (parts.map (fun q => q.2.1)).flatten
      let all_figures := (parts.map (fun q => q.2.2)).flatten
      let deduplicated := deduplicate_blocks_by_iou all_blocks (1/2)
      pure (some (⟨pi.1, dpi, pi.2.1, pi.2.2, deduplicated,
        if all_tables.isEmpty then none else some all_tables,
        if all_figures.isEmpty then none else some all_figures,
        none⟩ : Page)))
  pure (pages.filterMap id)

/-- C3 counterexample: at normalized x = 0.19 on a 10-pixel-wide
page, the endpoints' placement computes `int(1.9) = 1` while rounding
to the nearest integer yields 2. -/
theorem C3_counterexample_int_is_not_round :
    (tile_placement ⟨0, 19/100, 0, 1, 1, none⟩ 10 10).1 = 1 ∧
    pyround ((19/100 : ℚ) * (10 : ℤ)) = 2 := by
  constructor <;> decide

/-- C3 (amended): the tile endpoints derive the pixel placement by
Python `int()` truncation toward zero, which for the nonnegative
products of normalized coordinates with page dimensions is the floor,
not round-to-nearest: `x_px = ⌊nx * pageWidthPx⌋` and analogously for
the other three fields. -/
theorem C3_placement_truncates (spec : TileSpec) (W H : ℤ)
    (hx : 0 ≤ spec.x * W) (hy : 0 ≤ spec.y * H)
    (hw : 0 ≤ spec.w * W) (hh : 0 ≤ spec.h * H) :
    tile_placement spec W H =
      (⌊spec.x * (W : ℚ)⌋, ⌊spec.y * (H : ℚ)⌋,
       ⌊spec.w * (W : ℚ)⌋, ⌊spec.h * (H : ℚ)⌋) := by
  simp only [tile_placement, pytrunc, if_pos hx, if_pos hy, if_pos hw, if_pos hh]

/-- Witness for the amended C3 at a concrete tile spec. -/
theorem C3_placement_truncates_witness :
    tile_placement ⟨0, 19/100, 1/4, 1/2, 1/2, none⟩ 10 10 =
      (⌊(19/100 : ℚ) * ((10 : ℤ) : ℚ)⌋, ⌊(1/4 : ℚ) * ((10 : ℤ) : ℚ)⌋,
       ⌊(1/2 : ℚ) * ((10 : ℤ) : ℚ)⌋, ⌊(1/2 : ℚ) * ((10 : ℤ) : ℚ)⌋) :=
  C3_placement_truncates ⟨0, 19/100, 1/4, 1/2, 1/2, none⟩ 10 10
    (by decide) (by decide) (by decide) (by decide)

/-- C4: out-of-range page indices and non-positive crops in tile
specs do not fail the request — the endpoints silently skip the page
or process the empty crop, returning success, contrary to §7's
required behavior.  Evaluated on a one-page raster: a tile for page 5
yields `ok []`, and a zero-size tile on page 0 yields a successful
page with no blocks, for both endpoints. -/
theorem C4_malformed_tiles_silently_accepted :
    ocr_only_tiles_pages [⟨5, 0, 0, 1, 1, none⟩] [(100, 100)] 300
      (fun _ _ => .vDict []) = .ok [] ∧
    ocr_only_tiles_pages [⟨0, 0, 0, 0, 0, none⟩] [(100, 100)] 300
      (fun _ _ => .vDict []) =
      .ok [⟨0, 300, 100, 100, [], none, none, none⟩] ∧
    layout_only_tiles_pages [⟨5, 0, 0, 1, 1, none⟩] [(100, 100)] 300
      (fun _ _ => .vDict []) = .ok [] ∧
    layout_only_tiles_pages [⟨0, 0, 0, 0, 0, none⟩] [(100, 100)] 300
      (fun _ _ => .vDict []) =
      .ok [⟨0, 300, 100, 100, [], none, none, none⟩] :=
  ⟨rfl, rfl, rfl, rfl⟩

/-- C5: the coordinate remap used on every bbox by the tile endpoints
is invertible over exact arithmetic — applying the spec's inverse
transform with the same placement and page dimensions reconstructs
the original tile-local bbox. -/
theorem C5_remap_invertible (b : BBox) (x_px y_px W H : ℤ)
    (hW : 0 < W) (hH : 0 < H) :
    unmapBBox (remapBBox b x_px y_px W H) x_px y_px W H = b := by
  have hW' : ((W : ℚ)) ≠ 0 := by
    exact_mod_cast hW.ne'
  have hH' : ((H : ℚ)) ≠ 0 := by
    exact_mod_cast hH.ne'
  simp only [remapBBox, unmapBBox]
  cases b with
  | mk x y w h =>
    simp only [BBox.mk.injEq]
    refine ⟨?_, ?_, ?_, ?_⟩ <;> field_simp

/-- Witness for C5 at a concrete bbox and placement. -/
theorem C5_remap_invertible_witness :
    unmapBBox (remapBBox ⟨3, 4, 5, 6⟩ 7 8 100 200) 7 8 100 200 =
      ⟨3, 4, 5, 6⟩ :=
  C5_remap_invertible ⟨3, 4, 5, 6⟩ 7 8 100 200 (by decide) (by decide)

/-- Witness for C7 at concrete nonnegative boxes. -/
theorem C7_iou_spec_and_range_witness :
    calculate_bbox_iou ⟨0, 0, 2, 2⟩ ⟨1, 1, 2, 2⟩ = iou_spec ⟨0, 0, 2, 2⟩ ⟨1, 1, 2, 2⟩ ∧
    0 ≤ calculate_bbox_iou ⟨0, 0, 2, 2⟩ ⟨1, 1, 2, 2⟩ ∧
    calculate_bbox_iou ⟨0, 0, 2, 2⟩ ⟨1, 1, 2, 2⟩ ≤ 1 :=
  C7_iou_spec_and_range ⟨0, 0, 2, 2⟩ ⟨1, 1, 2, 2⟩
    (by decide) (by decide) (by decide) (by decide)

end OCRService
